import Mathlib

/-!
Verification of the `anime_image_manager` batch pipeline against its
natural-language specification.

Python strings are embedded as `List Char`.  Machine integers do not occur;
Python ints are `Int`/`Nat`.  Fallible code returns `Option`/`Except`.
The asyncio batch (`asyncio.gather`) is modelled by its canonical cooperative
linearization (tasks complete left to right); the rate limiter, whose
behaviour genuinely depends on the interleaving of `await` points, gets its
own small-step interleaving model further below.
-/

namespace TraceMoeHandler

/-- The characters removed by `_clean_title` (`illegal_chars = '<>:"/\\|?*'`). -/
def illegal_chars : List Char := ['<', '>', ':', '"', '/', '\\', '|', '?', '*']

/-- The whitespace stripped by Python `str.strip()` (ASCII part). -/
def py_space_chars : List Char := [' ', '\t', '\n', '\r', Char.ofNat 11, Char.ofNat 12]

def py_is_space (c : Char) : Bool := py_space_chars.contains c

/-- Python `str.strip()`: drop leading and trailing whitespace. -/
def py_strip (s : List Char) : List Char :=
  ((s.dropWhile py_is_space).reverse.dropWhile py_is_space).reverse

/-- The character-replacement loop of `_clean_title`. -/
def sanitize (s : List Char) : List Char :=
  s.map (fun c => if illegal_chars.contains c then '_' else c)

def dots3 : List Char := ['.', '.', '.']

/-- Model of `TraceMoeHandler._clean_title`: replace illegal filename characters by
`'_'`, truncate to 97 characters plus `"..."` when longer than 100, strip. -/
def clean_title (title : List Char) : List Char :=
  let t := sanitize title
  let t2 := if 100 < t.length then t.take 97 ++ dots3 else t
  py_strip t2

/-- Decimal digit character for `n < 10`. -/
def digitChar (n : Nat) : Char := Char.ofNat (48 + n)

/-- Decimal rendering of a natural number (little fuel-driven model of
Python `%d`); `natDecAux (n+1) n` renders `n`. -/
def natDecAux : Nat → Nat → List Char
  | 0, _ => []
  | f + 1, n =>
    if n < 10 then [digitChar n] else natDecAux f (n / 10) ++ [digitChar (n % 10)]

def natDec (n : Nat) : List Char := natDecAux (n + 1) n

/-- Left-pad with `'0'` to width `w`. -/
def padZeros (w : Nat) (s : List Char) : List Char :=
  List.replicate (w - s.length) '0' ++ s

/-- Python `f"{i:0wd}"` on an int: zeros are inserted between the sign and
the digits, and the width counts the sign. -/
def pyFmtInt (w : Nat) (i : Int) : List Char :=
  if i < 0 then '-' :: padZeros (w - 1) (natDec i.natAbs) else padZeros w (natDec i.toNat)

/-- The Python values that can show up in the `episode` field of a
trace.moe match (from parsed JSON). -/
inductive PyVal where
  | pynone
  | pyint (n : Int)
  | pystr (s : List Char)
  | pylist (l : List PyVal)

/-- Model of `TraceMoeHandler._get_episode`.  Python `f"{x:02d}"` raises on non-int values;
`_get_episode` has no `try`, so the error propagates (to be caught by
`identify_image`, which then returns no result). -/
def get_episode : PyVal → Except Unit (List Char)
  | .pynone => .ok ['0', '0']
  | .pyint n => .ok (pyFmtInt 2 n)
  | .pystr _ => .error ()
  | .pylist [] => .ok ['0', '0']
  | .pylist (.pyint n :: _) => .ok (pyFmtInt 2 n)
  | .pylist (_ :: _) => .error ()

/-- The `from` field as seen by `_format_timestamp`: absent (`None`), a
value whose `int()` is `n` (ints, floats truncated toward zero, numeric
strings), or a value on which `int()` raises `TypeError`/`ValueError`. -/
inductive PySeconds where
  | pynone
  | num (n : Int)
  | badval
deriving DecidableEq, Repr

def zero8 : List Char := ['0', '0', ':', '0', '0', ':', '0', '0']

/-- Model of `TraceMoeHandler._format_timestamp`.  Python `//` and `%` are floor
division and floor modulus (`Int.fdiv`/`Int.fmod`); the internal
`try/except (TypeError, ValueError)` maps `badval` to `"00:00:00"`. -/
def format_timestamp : PySeconds → List Char
  | .pynone => zero8
  | .badval => zero8
  | .num n =>
    let hours := Int.fdiv n 3600
    let minutes := Int.fdiv (Int.fmod n 3600) 60
    let secs := Int.fmod n 60
    pyFmtInt 2 hours ++ ':' :: (pyFmtInt 2 minutes ++ ':' :: pyFmtInt 2 secs)

/-- A validated trace.moe best match, reduced to the fields the returned
dictionary is built from (`_validate_match_data` only checks presence of
the keys, not their types). -/
structure MatchData where
  episode : PyVal
  fromv : PySeconds

/-- The dictionary built by a successful `identify_image`. -/
structure RecogOut where
  anime_title : List Char
  episode : List Char
  timestamp : List Char
deriving DecidableEq, Repr

/-- Result construction at the end of `identify_image` for a validated best
match: any exception from the `f"{...:02d}"` formatting is caught by the
surrounding `try` and turns the whole call into `None`. -/
def identify_result (title : List Char) (m : MatchData) : Option RecogOut :=
  match get_episode m.episode with
  | .error _ => none
  | .ok e => some { anime_title := title, episode := e, timestamp := format_timestamp m.fromv }

/-- The `episode` values for which the code's formatting yields a plain
zero-padded decimal: `None`, empty list, or (head of list / plain)
nonnegative int. -/
def ep_nonneg : PyVal → Bool
  | .pynone => true
  | .pyint n => decide (0 ≤ n)
  | .pylist [] => true
  | .pylist (.pyint n :: _) => decide (0 ≤ n)
  | _ => false

/-- The `from` values whose formatted timestamp is a well-formed `HH:MM:SS`:
absent, unparseable, or a nonnegative integer part below 100 hours. -/
def seconds_ok : PySeconds → Bool
  | .pynone => true
  | .badval => true
  | .num n => decide (0 ≤ n ∧ n < 360000)

/-- Shape check `\d\d:\d\d:\d\d`: three colon-separated two-digit fields. -/
def isHHMMSS : List Char → Bool
  | [a, b, c1, d, e, c2, f, g] =>
    a.isDigit && b.isDigit && c1 = ':' && d.isDigit && e.isDigit && c2 = ':' &&
      f.isDigit && g.isDigit
  | _ => false

end TraceMoeHandler

namespace AnimeImageManager

open TraceMoeHandler

def episodeTag : List Char := ['_', 'E', 'p', 'i', 's', 'o', 'd', 'e']

def jpgTag : List Char := ['.', 'j', 'p', 'g']

def animeTag : List Char := ['A', 'n', 'i', 'm', 'e', '_']

/-- Strip a literal pattern off the front of a list, returning the rest. -/
def dropLit : List Char → List Char → Option (List Char)
  | [], l => some l
  | _ :: _, [] => none
  | p :: ps, c :: cs => if c = p then dropLit ps cs else none

/-- The `\d{2}:\d{2}:\d{2}\.jpg$` tail of the two name patterns under
Python `re` semantics: `$` accepts the end of the string or a single final
newline. -/
def tailMatch : List Char → Bool
  | a :: b :: c1 :: d :: e :: c2 :: f :: g :: rest =>
    a.isDigit && b.isDigit && c1 = ':' && d.isDigit && e.isDigit && c2 = ':' &&
      f.isDigit && g.isDigit &&
      (match dropLit jpgTag rest with
       | some r => r = [] || r = ['\n']
       | none => false)
  | _ => false

/-- The `_Episode\d+_\d{2}:...` core shared by both patterns.  `\d+` is
followed by the literal `_`, a non-digit, so every successful regex match
consumes the maximal digit run, which `takeWhile`/`dropWhile` computes. -/
def coreMatch (l : List Char) : Bool :=
  match dropLit episodeTag l with
  | none => false
  | some r =>
    let ds := r.takeWhile Char.isDigit
    !ds.isEmpty &&
      (match r.dropWhile Char.isDigit with
       | '_' :: r2 => tailMatch r2
       | _ => false)

/-- Python `re.match` of `.*_Episode\d+_\d{2}:\d{2}:\d{2}\.jpg$`: some
prefix free of `'\n'` (what `.*` can consume) followed by the core. -/
def pat1Match (s : List Char) : Bool :=
  (List.range (s.length + 1)).any
    (fun i => (s.take i).all (fun c => c != '\n') && coreMatch (s.drop i))

/-- Python `re.match` of `Anime_\d+_Episode\d+_\d{2}:\d{2}:\d{2}\.jpg$`. -/
def pat2Match (s : List Char) : Bool :=
  match dropLit animeTag s with
  | none => false
  | some r =>
    let ds := r.takeWhile Char.isDigit
    !ds.isEmpty && coreMatch (r.dropWhile Char.isDigit)

/-- Model of `AnimeImageManager._is_already_processed`. -/
def is_already_processed (filename : List Char) : Bool :=
  pat1Match filename || pat2Match filename

/-- Oracle for the external calls made while processing one image:
`identify_image` returns no match, raises, or returns a result; then the
rename and the Firebase save each succeed or fail. -/
inductive ItemOutcome where
  | exn
  | noMatch
  | ok (r : RecogOut) (renameOk saveOk : Bool)
deriving DecidableEq, Repr

/-- One file of the Drive listing (`path` is the Drive file id) together
with its processing oracle. -/
structure RunItem where
  id : List Char
  name : List Char
  outcome : ItemOutcome
deriving DecidableEq, Repr

inductive SaveCtx where
  | afterItem
  | afterPage
deriving DecidableEq, Repr

/-- Snapshot written by one `save_progress` call. -/
structure SaveEvent where
  ctx : SaveCtx
  files : List (List Char)
  processed : Nat
  errors : Nat
deriving DecidableEq, Repr

/-- The manager's mutable state, plus instrumentation of the embedding:
`saves` records every `save_progress` call with its snapshot, `identified`
records every item submitted to `identify_image`, `pagesFetched` counts
calls to `get_images_from_folder`, `pagesProcessed` counts loop iterations
that ran their batches, `done` records that the `while` loop exited. -/
structure MgrState where
  processedFiles : List (List Char)
  processedCount : Nat
  errorCount : Nat
  skipped : Nat
  saves : List SaveEvent
  identified : List RunItem
  pagesFetched : Nat
  pagesProcessed : Nat
  done : Bool
deriving DecidableEq, Repr

/-- The `ImageData` record built on success. -/
structure ImageDataM where
  path : List Char
  name : List Char
  anime_title : List Char
  episode : List Char
  timestamp : List Char
deriving DecidableEq, Repr

/-- The new file name `f"{result['anime_title']}_Episode{result['episode']}_{result['timestamp']}.jpg"`. -/
def new_name (r : RecogOut) : List Char :=
  r.anime_title ++ episodeTag ++ r.episode ++ '_' :: r.timestamp ++ jpgTag

/-- Model of `AnimeImageManager.process_single_image`.  On full success the counter
and the id set are updated and `save_progress` runs; every failure path
increments `error_count` and returns `None`. -/
def process_single_image (st : MgrState) (img : RunItem) : MgrState × Option ImageDataM :=
  if img.id ∈ st.processedFiles then (st, none)
  else
    let st1 := { st with identified := st.identified ++ [img] }
    match img.outcome with
    | .exn => ({ st1 with errorCount := st1.errorCount + 1 }, none)
    | .noMatch => ({ st1 with errorCount := st1.errorCount + 1 }, none)
    | .ok r renameOk saveOk =>
      if renameOk then
        if saveOk then
          let st2 := { st1 with
            processedCount := st1.processedCount + 1,
            processedFiles := st1.processedFiles ++ [img.id] }
          ({ st2 with
              saves := st2.saves ++
                [⟨.afterItem, st2.processedFiles, st2.processedCount, st2.errorCount⟩] },
            some ⟨img.id, new_name r, r.anime_title, r.episode, r.timestamp⟩)
        else ({ st1 with errorCount := st1.errorCount + 1 }, none)
      else ({ st1 with errorCount := st1.errorCount + 1 }, none)

/-- cut a list into `asyncio.gather` batches of size `k`
(`range(0, len(l), k)`); fuel-driven so that it also computes. -/
def chunkAux : Nat → Nat → List (RunItem) → List (List RunItem)
  | 0, _, _ => []
  | _, _, [] => []
  | f + 1, k, l => l.take k :: chunkAux f k (l.drop k)

def chunk (k : Nat) (l : List RunItem) : List (List RunItem) := chunkAux l.length k l

/-- One `asyncio.gather` batch, in its canonical left-to-right cooperative
linearization. -/
def process_batch (st : MgrState) (batch : List RunItem) : MgrState :=
  batch.foldl (fun s i => (process_single_image s i).1) st

def process_batches (st : MgrState) (bs : List (List RunItem)) : MgrState :=
  bs.foldl process_batch st

/-- The page filter of `process_folder` (drop ids already in
`processed_files` and names matching `_is_already_processed`). -/
def page_filter (files : List (List Char)) (page : List RunItem) : List RunItem :=
  page.filter (fun i => decide (i.id ∉ files) && !is_already_processed i.name)

/-- The per-page `save_progress` at the end of the loop body. -/
def page_save (st : MgrState) : MgrState :=
  { st with
    saves := st.saves ++ [⟨.afterPage, st.processedFiles, st.processedCount, st.errorCount⟩],
    pagesProcessed := st.pagesProcessed + 1 }

/-- Model of `GoogleDriveHandler.get_images_from_folder` over a fixed token chain
`pages`, at loop iteration `k` (`start_index = k * BATCH_SIZE`):
`_get_page_token` walks `k` next-page tokens, and when the walk falls off
the end of the chain it returns `None`, which makes the listing serve the
FIRST page again. -/
def fetch_page (pages : List (List RunItem)) (k : Nat) : List RunItem :=
  if h : k < pages.length then pages.get ⟨k, h⟩ else pages.headD []

/-- The `while True:` loop of `AnimeImageManager.process_folder`; `fuel`
bounds the number of iterations the model unfolds (the Python loop has no
such bound and genuinely diverges on some inputs), `k` is the page index. -/
def run_loop (limit : Nat) (pages : List (List RunItem)) :
    Nat → Nat → MgrState → MgrState
  | 0, _, st => st
  | fuel + 1, k, st =>
    let page := fetch_page pages k
    let st0 := { st with pagesFetched := st.pagesFetched + 1 }
    if page.isEmpty then { st0 with done := true }
    else
      let unproc := page_filter st0.processedFiles page
      let st1 := { st0 with skipped := st0.skipped + (page.length - unproc.length) }
      if unproc.isEmpty then { st1 with done := true }
      else
        run_loop limit pages fuel (k + 1)
          (page_save (process_batches st1 (chunk limit unproc)))

/-- Manager state at entry of `process_folder`: counters and the id set as
loaded, `skipped_count = len(self.processed_files)`, empty instrumentation. -/
def init_state (files0 : List (List Char)) (pc ec : Nat) : MgrState :=
  ⟨files0, pc, ec, files0.length, [], [], 0, 0, false⟩

/-- Model of `AnimeImageManager.process_folder` (after the folder-existence check). -/
def process_folder (limit : Nat) (pages : List (List RunItem)) (fuel : Nat)
    (files0 : List (List Char)) (pc ec : Nat) : MgrState :=
  run_loop limit pages fuel 0 (init_state files0 pc ec)

end AnimeImageManager

namespace ProgressStore

open TraceMoeHandler

/-- File-system operations visible in `save_progress`.  `replaceFile`
models an atomic `os.replace`, which staged atomic writers would use; it is
listed so that its absence from the code's trace can be stated. -/
inductive FileOp where
  | openTrunc (path : List Char)
  | writeData (path : List Char) (data : List Char)
  | closeFile (path : List Char)
  | replaceFile (src dst : List Char)
deriving DecidableEq, Repr

/-- A file system: association of paths to contents. -/
def FS := List (List Char × List Char)

def fsGet : FS → List Char → Option (List Char)
  | [], _ => none
  | (q, c) :: t, p => if q = p then some c else fsGet t p

def fsSet : FS → List Char → List Char → FS
  | [], p, c => [(p, c)]
  | (q, d) :: t, p, c => if q = p then (p, c) :: t else (q, d) :: fsSet t p c

def execOp (fs : FS) : FileOp → FS
  | .openTrunc p => fsSet fs p []
  | .writeData p d => fsSet fs p ((fsGet fs p).getD [] ++ d)
  | .closeFile _ => fs
  | .replaceFile s d =>
    match fsGet fs s with
    | some c => fsSet fs d c
    | none => fs

def execOps (fs : FS) (ops : List FileOp) : FS := ops.foldl execOp fs

def progress_path : List Char := ['p', 'r', 'o', 'g', 'r', 'e', 's', 's', '.', 'j', 's', 'o', 'n']

def quoteJ (s : List Char) : List Char := '"' :: s ++ ['"']

def commaSep : List (List Char) → List Char
  | [] => []
  | [x] => x
  | x :: y :: t => x ++ ',' :: ' ' :: commaSep (y :: t)

/-- The serialized progress dictionary (`json.dump` of
`{'processed_files', 'processed_count', 'error_count', 'last_update'}`;
whitespace/indentation and string escaping of `json.dump` are elided, the
four fields and their values are kept). -/
def serialize_progress (files : List (List Char)) (pc ec : Nat) (ts : List Char) : List Char :=
  Char.ofNat 123 ::
    (quoteJ ['p','r','o','c','e','s','s','e','d','_','f','i','l','e','s'] ++ ':' :: ' ' ::
      '[' :: commaSep (files.map quoteJ) ++ ']' :: ',' :: ' ' ::
      quoteJ ['p','r','o','c','e','s','s','e','d','_','c','o','u','n','t'] ++ ':' :: ' ' ::
      natDec pc ++ ',' :: ' ' ::
      quoteJ ['e','r','r','o','r','_','c','o','u','n','t'] ++ ':' :: ' ' ::
      natDec ec ++ ',' :: ' ' ::
      quoteJ ['l','a','s','t','_','u','p','d','a','t','e'] ++ ':' :: ' ' ::
      quoteJ ts) ++ [Char.ofNat 125]

/-- The file operations `AnimeImageManager.save_progress` performs when the
write succeeds: `open('progress.json', 'w')` truncates the target in place,
`json.dump` writes into it, the `with` block closes it.  No temporary file,
no atomic replace. -/
def save_progress_ops (files : List (List Char)) (pc ec : Nat) (ts : List Char) : List FileOp :=
  [.openTrunc progress_path,
   .writeData progress_path (serialize_progress files pc ec ts),
   .closeFile progress_path]

/-- Does some operation of the trace write (truncate or append) straight to
the given target path? -/
def writes_target_directly (ops : List FileOp) (t : List Char) : Bool :=
  ops.any (fun op =>
    match op with
    | .openTrunc p => p = t
    | .writeData p _ => p = t
    | _ => false)

/-- Does the trace install the target via an atomic replace? -/
def replaces_into (ops : List FileOp) (t : List Char) : Bool :=
  ops.any (fun op =>
    match op with
    | .replaceFile _ d => d = t
    | _ => false)

/-- Crash safety of a trace for a target file: at every crash point (prefix
of the trace) the target holds either its previous content or the
final content ("last complete flush wins, torn writes never corrupt"). -/
def crash_safe (ops : List FileOp) (t : List Char) (fs : FS) : Bool :=
  (List.range (ops.length + 1)).all (fun k =>
    fsGet (execOps fs (ops.take k)) t = fsGet fs t ||
    fsGet (execOps fs (ops.take k)) t = fsGet (execOps fs ops) t)

/-- Parsed progress file as far as `load_progress` consumes it: the three
`data.get(..., default)` fields (`last_update` is never read). -/
structure PData where
  processed_files : Option (List (List Char))
  processed_count : Option Nat
  error_count : Option Nat
deriving DecidableEq, Repr

/-- What the progress file can present to `load_progress`: missing
(`Path.exists` false), unreadable/corrupt (open/`json.load`/field access
raises), or parsed data. -/
inductive LoadInput where
  | absent
  | corrupt
  | valid (d : PData)
deriving DecidableEq, Repr

/-- The in-memory fields `load_progress` is responsible for. -/
structure LoadedState where
  processed_files : List (List Char)
  processed_count : Nat
  error_count : Nat
deriving DecidableEq, Repr

def empty_loaded : LoadedState := ⟨[], 0, 0⟩

/-- Model of `AnimeImageManager.load_progress`: fields start from the `__init__`
defaults (empty set, zero counters); an absent file leaves them; any
exception is caught and logged, leaving them as well. -/
def load_progress : LoadInput → LoadedState
  | .absent => empty_loaded
  | .corrupt => empty_loaded
  | .valid d =>
    ⟨d.processed_files.getD [], d.processed_count.getD 0, d.error_count.getD 0⟩

/-- The body of `save_progress` before its `except`: either the write goes
through (producing the file-op trace) or the attempt raises. -/
def save_progress_run (files : List (List Char)) (pc ec : Nat) (ts : List Char)
    (writeOk : Bool) : Except (List Char) (List FileOp) :=
  if writeOk then .ok (save_progress_ops files pc ec ts)
  else .error ['f', 'a', 'i', 'l']

/-- Model of `save_progress` as its caller sees it: the `except Exception` clause
logs and swallows the failure, so no exception reaches the caller. -/
def save_progress_caught (files : List (List Char)) (pc ec : Nat) (ts : List Char)
    (writeOk : Bool) : Except (List Char) (List FileOp) :=
  match save_progress_run files pc ec ts writeOk with
  | .ok x => .ok x
  | .error _ => .ok []

end ProgressStore

namespace RateLimiter

/-- Phases of one task executing `TraceMoeHandler._rate_limit`:
`ready` = about to run the body up to the (possible) `await asyncio.sleep`;
`sleeping w` = parked until loop time `w`;
`wakeAssign` = sleep finished, about to run `self._last_request_time = ...`;
`finished` = returned (the recognition request is issued right after). -/
inductive Phase where
  | ready
  | sleeping (wake : Nat)
  | wakeAssign
  | finished
deriving DecidableEq, Repr

/-- The shared state: `TRACE_MOE_RATE_LIMIT`, the single shared
`_last_request_time`, the event-loop clock, one phase per task, and the
loop times at which `_rate_limit` returned (acquisition times), in order. -/
structure Sys where
  limit : Nat
  lastReq : Nat
  time : Nat
  tasks : List Phase
  acqs : List Nat
deriving DecidableEq, Repr

def runnable : Phase → Bool
  | .ready => true
  | .wakeAssign => true
  | _ => false

/-- Run task `i` up to its next suspension point (asyncio runs the code
between awaits atomically).  A `ready` task reads `_last_request_time`,
and either suspends on `sleep(delay)` without writing anything, or — when
no wait is due — writes `_last_request_time` and returns.  A `wakeAssign`
task performs the post-sleep write and returns. -/
def runTask (s : Sys) (i : Nat) : Sys :=
  match s.tasks.get? i with
  | some .ready =>
    let since := s.time - s.lastReq
    if since < s.limit then
      { s with tasks := s.tasks.set i (.sleeping (s.time + (s.limit - since))) }
    else
      { s with lastReq := s.time, tasks := s.tasks.set i .finished,
               acqs := s.acqs ++ [s.time] }
  | some .wakeAssign =>
    { s with lastReq := s.time, tasks := s.tasks.set i .finished,
             acqs := s.acqs ++ [s.time] }
  | _ => s

/-- The event loop advances time only when no task is runnable: the clock
jumps to the earliest wake-up and the tasks due then become runnable. -/
def advance (s : Sys) : Sys :=
  if s.tasks.any runnable then s
  else
    match (s.tasks.filterMap (fun p => match p with | .sleeping w => some w | _ => none)).min? with
    | none => s
    | some w =>
      { s with time := w,
               tasks := s.tasks.map (fun p =>
                 match p with
                 | .sleeping w2 => if w2 = w then .wakeAssign else .sleeping w2
                 | p => p) }

inductive Choice where
  | run (i : Nat)
  | tick
deriving DecidableEq, Repr

def step (s : Sys) : Choice → Sys
  | .run i => runTask s i
  | .tick => advance s

/-- Execute a schedule (a sequence of scheduler choices). -/
def exec (s : Sys) (cs : List Choice) : Sys := cs.foldl step s

/-- Consecutive gaps of an acquisition-time list. -/
def gaps : List Nat → List Nat
  | a :: b :: t => (b - a) :: gaps (b :: t)
  | _ => []

/-- Two tasks entering `identify_image` concurrently (the pipeline launches
up to `CONCURRENT_LIMIT = 5` at once), with the handler's initial
`_last_request_time = 0`, at loop time 0, rate limit 10. -/
def twoTasks : Sys := ⟨10, 0, 0, [.ready, .ready], []⟩

/-- The schedule asyncio itself would produce for `twoTasks`: both tasks
run to their sleeps, the loop advances to the common wake-up, both finish. -/
def raceSchedule : List Choice := [.run 0, .run 1, .tick, .run 0, .run 1]

/-- Sequential abstraction of `_rate_limit` for a single caller: from the
stored `last` and the current loop time `now`, the time at which the call
returns, which is also the new `_last_request_time`. -/
def rate_limit_return (limit last now : Nat) : Nat :=
  if now - last < limit then now + (limit - (now - last)) else now

end RateLimiter

namespace AnimeImageManager

open TraceMoeHandler

/-- Did the item run the whole success path (rename and Firebase save both
succeeded)? -/
def ItemOutcome.success : ItemOutcome → Bool
  | .ok _ rOk sOk => rOk && sOk
  | _ => false

/-- Number of `save_progress` calls made from inside
`process_single_image` (after a successful item). -/
def saves_ai (st : MgrState) : Nat :=
  (st.saves.filter (fun e => decide (e.ctx = SaveCtx.afterItem))).length

/-- Number of `save_progress` calls made at the end of a loop iteration. -/
def saves_ap (st : MgrState) : Nat :=
  (st.saves.filter (fun e => decide (e.ctx = SaveCtx.afterPage))).length

/-- Scenario fixtures: a collection of three images of which the middle one
gets no trace.moe match (spec section 8). -/
def itA : RunItem :=
  ⟨['a'], ['a', '.', 'j', 'p', 'g'], .ok ⟨['T'], ['0', '1'], zero8⟩ true true⟩

def itB : RunItem := ⟨['b'], ['b', '.', 'j', 'p', 'g'], .noMatch⟩

def itC : RunItem :=
  ⟨['c'], ['c', '.', 'j', 'p', 'g'], .ok ⟨['T'], ['0', '2'], zero8⟩ true true⟩

def itP : RunItem :=
  ⟨['p'], ['p', '.', 'j', 'p', 'g'], .ok ⟨['T'], ['0', '3'], zero8⟩ true true⟩

/-- The single-page three-item scenario never exits its loop: once the
offset passes the end of the listing, `get_images_from_folder` serves the
first page again, the failing item passes the filter again and is
re-submitted, forever. -/
def scenario_never_ends : Prop :=
  ∀ fuel k st, ['b'] ∉ st.processedFiles → st.done = false →
    (run_loop 2 [[itA, itB, itC]] fuel k st).done = false

end AnimeImageManager

open TraceMoeHandler AnimeImageManager ProgressStore RateLimiter

lemma digitChar_isDigit (n : Nat) (h : n < 10) : (digitChar n).isDigit = true := by
  interval_cases n <;> decide

lemma natDecAux_digits : ∀ f n, n < f → ∀ c ∈ natDecAux f n, c.isDigit = true := by
  intro f
  induction f with
  | zero => intro n h; omega
  | succ f ih =>
    intro n h c hc
    by_cases h10 : n < 10
    · simp [natDecAux, h10] at hc
      subst hc; exact digitChar_isDigit n h10
    · simp [natDecAux, h10] at hc
      rcases hc with hc | hc
      · have hdiv : n / 10 < n := Nat.div_lt_self (by omega) (by omega)
        exact ih (n / 10) (by omega) c hc
      · subst hc; exact digitChar_isDigit _ (Nat.mod_lt _ (by omega))

lemma natDec_digits (n : Nat) : ∀ c ∈ natDec n, c.isDigit = true :=
  natDecAux_digits (n + 1) n (Nat.lt_succ_self n)

lemma natDecAux_small (f n : Nat) (h : n < 10) (hf : 0 < f) :
    natDecAux f n = [digitChar n] := by
  cases f with
  | zero => omega
  | succ f => simp [natDecAux, h]

lemma natDec_two_digit (m : Nat) (h1 : 10 ≤ m) (h2 : m < 100) :
    natDec m = [digitChar (m / 10), digitChar (m % 10)] := by
  unfold natDec
  rw [show natDecAux (m + 1) m = natDecAux m (m / 10) ++ [digitChar (m % 10)] by
    simp [natDecAux, show ¬ m < 10 by omega]]
  rw [natDecAux_small m (m / 10) (by omega) (by omega)]
  rfl

lemma padZeros_two (m : Nat) (h : m < 100) :
    ∃ a b, padZeros 2 (natDec m) = [a, b] ∧ a.isDigit = true ∧ b.isDigit = true := by
  by_cases h10 : m < 10
  · refine ⟨'0', digitChar m, ?_, by decide, digitChar_isDigit m h10⟩
    unfold natDec
    rw [natDecAux_small _ _ h10 (by omega)]
    rfl
  · refine ⟨digitChar (m / 10), digitChar (m % 10), ?_,
      digitChar_isDigit _ (by omega), digitChar_isDigit _ (Nat.mod_lt _ (by omega))⟩
    rw [natDec_two_digit m (by omega) h]
    rfl

lemma natDec_ne_nil (n : Nat) : natDec n ≠ [] := by
  unfold natDec
  by_cases h : n < 10
  · simp [natDecAux, h]
  · simp [natDecAux, h]

lemma padZeros_length (w : Nat) (s : List Char) : w ≤ (padZeros w s).length := by
  simp [padZeros]
  omega

lemma padZeros_digits (w : Nat) (s : List Char) (h : ∀ c ∈ s, c.isDigit = true) :
    ∀ c ∈ padZeros w s, c.isDigit = true := by
  intro c hc
  rcases List.mem_append.mp hc with hc | hc
  · have := List.eq_of_mem_replicate hc
    subst this; decide
  · exact h c hc

lemma fdiv_ofNat (m k : Nat) : Int.fdiv (Int.ofNat m) (Int.ofNat k) = Int.ofNat (m / k) :=
  (Int.ofNat_fdiv m k).symm

lemma fmod_ofNat (m k : Nat) : Int.fmod (Int.ofNat m) (Int.ofNat k) = Int.ofNat (m % k) :=
  (Int.ofNat_fmod m k).symm

lemma pyFmtInt_ofNat (w m : Nat) : pyFmtInt w (Int.ofNat m) = padZeros w (natDec m) := by
  simp [pyFmtInt, Int.not_lt.mpr (Int.ofNat_nonneg m)]

lemma mem_py_strip {c : Char} {l : List Char} (h : c ∈ py_strip l) : c ∈ l := by
  unfold py_strip at h
  rw [List.mem_reverse] at h
  have h2 := (List.dropWhile_sublist _).subset h
  rw [List.mem_reverse] at h2
  exact (List.dropWhile_sublist _).subset h2

lemma py_strip_length (l : List Char) : (py_strip l).length ≤ l.length := by
  unfold py_strip
  rw [List.length_reverse]
  calc ((l.dropWhile py_is_space).reverse.dropWhile py_is_space).length
      ≤ (l.dropWhile py_is_space).reverse.length := (List.dropWhile_sublist _).length_le
    _ = (l.dropWhile py_is_space).length := List.length_reverse _
    _ ≤ l.length := (List.dropWhile_sublist _).length_le

lemma mem_sanitize {c : Char} {t : List Char} (h : c ∈ sanitize t) :
    c ∉ illegal_chars := by
  simp only [sanitize, List.mem_map] at h
  obtain ⟨x, hx, hc⟩ := h
  by_cases hx2 : illegal_chars.contains x
  · rw [if_pos hx2] at hc
    subst hc; decide
  · rw [if_neg hx2] at hc
    subst hc
    simpa using hx2

/-- C10.  `_clean_title` removes every Windows-illegal filename character,
returns at most 100 characters, and for sanitized inputs longer than 100
characters returns the first 97 followed by `"..."`, stripped. -/
theorem C10_clean_title_shape (t : List Char) :
    ((clean_title t).all (fun c => !illegal_chars.contains c) = true) ∧
    (clean_title t).length ≤ 100 ∧
    (100 < (sanitize t).length →
      clean_title t = py_strip ((sanitize t).take 97 ++ dots3)) := by
  refine ⟨?_, ?_, ?_⟩
  · rw [List.all_eq_true]
    intro c hc
    unfold clean_title at hc
    simp only at hc
    by_cases hlen : 100 < (sanitize t).length
    · rw [if_pos hlen] at hc
      have hc2 := mem_py_strip hc
      rcases List.mem_append.mp hc2 with hc3 | hc3
      · have := mem_sanitize (List.take_subset _ _ hc3)
        simpa using this
      · have : c = '.' := by
          simpa [dots3] using hc3
        subst this; decide
    · rw [if_neg hlen] at hc
      have := mem_sanitize (mem_py_strip hc)
      simpa using this
  · unfold clean_title
    simp only
    by_cases hlen : 100 < (sanitize t).length
    · rw [if_pos hlen]
      have h1 := py_strip_length ((sanitize t).take 97 ++ dots3)
      have h2 : ((sanitize t).take 97).length = 97 := by
        rw [List.length_take]
        omega
      rw [List.length_append, h2] at h1
      simpa using h1
    · rw [if_neg hlen]
      have h1 := py_strip_length (sanitize t)
      omega
  · intro hlen
    unfold clean_title
    simp only
    rw [if_pos hlen]

/-- Witness for C10 at an input whose sanitized form is 101 characters. -/
theorem C10_clean_title_shape_witness :
    (100 < (sanitize (List.replicate 101 'x')).length) ∧
    clean_title (List.replicate 101 'x') =
      py_strip ((sanitize (List.replicate 101 'x')).take 97 ++ dots3) :=
  ⟨by decide, (C10_clean_title_shape (List.replicate 101 'x')).2.2 (by decide)⟩

lemma format_timestamp_shape (sv : PySeconds) (h : seconds_ok sv = true) :
    ∃ a b c d e f, format_timestamp sv = [a, b, ':', c, d, ':', e, f] ∧
      a.isDigit = true ∧ b.isDigit = true ∧ c.isDigit = true ∧
      d.isDigit = true ∧ e.isDigit = true ∧ f.isDigit = true := by
  cases sv with
  | pynone => exact ⟨'0', '0', '0', '0', '0', '0', rfl, by decide, by decide, by decide,
      by decide, by decide, by decide⟩
  | badval => exact ⟨'0', '0', '0', '0', '0', '0', rfl, by decide, by decide, by decide,
      by decide, by decide, by decide⟩
  | num n =>
    simp only [seconds_ok, decide_eq_true_eq] at h
    obtain ⟨hn0, hn⟩ := h
    obtain ⟨m, rfl⟩ : ∃ m : Nat, n = Int.ofNat m := ⟨n.toNat, (Int.toNat_of_nonneg hn0).symm⟩
    have hm : m < 360000 := by
      rw [Int.ofNat_eq_natCast] at hn
      exact_mod_cast hn
    have e1 : Int.fdiv (Int.ofNat m) 3600 = Int.ofNat (m / 3600) := fdiv_ofNat m 3600
    have e2 : Int.fmod (Int.ofNat m) 3600 = Int.ofNat (m % 3600) := fmod_ofNat m 3600
    have e3 : Int.fdiv (Int.ofNat (m % 3600)) 60 = Int.ofNat (m % 3600 / 60) :=
      fdiv_ofNat (m % 3600) 60
    have e4 : Int.fmod (Int.ofNat m) 60 = Int.ofNat (m % 60) := fmod_ofNat m 60
    obtain ⟨a, b, hab, ha, hb⟩ := padZeros_two (m / 3600) (by omega)
    obtain ⟨c, d, hcd, hc, hd⟩ := padZeros_two (m % 3600 / 60) (by omega)
    obtain ⟨e, f, hef, he, hf⟩ := padZeros_two (m % 60) (Nat.lt_of_lt_of_le (Nat.mod_lt _ (by omega)) (by omega))
    refine ⟨a, b, c, d, e, f, ?_, ha, hb, hc, hd, he, hf⟩
    show pyFmtInt 2 (Int.fdiv (Int.ofNat m) 3600) ++ ':' ::
        (pyFmtInt 2 (Int.fdiv (Int.fmod (Int.ofNat m) 3600) 60) ++ ':' ::
          pyFmtInt 2 (Int.fmod (Int.ofNat m) 60)) = _
    rw [e1, e2, e3, e4, pyFmtInt_ofNat, pyFmtInt_ofNat, pyFmtInt_ofNat, hab, hcd, hef]
    rfl

lemma format_timestamp_HHMMSS (sv : PySeconds) (h : seconds_ok sv = true) :
    isHHMMSS (format_timestamp sv) = true := by
  obtain ⟨a, b, c, d, e, f, hshape, ha, hb, hc, hd, he, hf⟩ := format_timestamp_shape sv h
  rw [hshape]
  simp [isHHMMSS, ha, hb, hc, hd, he, hf]

lemma get_episode_digits (e : PyVal) (s : List Char) (hn : ep_nonneg e = true)
    (h : get_episode e = .ok s) :
    (∀ c ∈ s, c.isDigit = true) ∧ 2 ≤ s.length := by
  have hint : ∀ n : Int, 0 ≤ n → pyFmtInt 2 n = padZeros 2 (natDec n.toNat) := by
    intro n h0
    obtain ⟨m, rfl⟩ : ∃ m : Nat, n = Int.ofNat m := ⟨n.toNat, (Int.toNat_of_nonneg h0).symm⟩
    rw [pyFmtInt_ofNat]
    rfl
  have hpad : ∀ m : Nat, (∀ c ∈ padZeros 2 (natDec m), c.isDigit = true) ∧
      2 ≤ (padZeros 2 (natDec m)).length := by
    intro m
    exact ⟨padZeros_digits 2 _ (natDec_digits m), padZeros_length 2 _⟩
  rcases e with _ | n | s2 | l
  · simp only [get_episode, Except.ok.injEq] at h
    subst h
    exact ⟨by decide, by decide⟩
  · simp only [ep_nonneg, decide_eq_true_eq] at hn
    simp only [get_episode, Except.ok.injEq] at h
    subst h
    rw [hint n hn]
    exact hpad _
  · simp [ep_nonneg] at hn
  · rcases l with _ | ⟨x, t⟩
    · simp only [get_episode, Except.ok.injEq] at h
      subst h
      exact ⟨by decide, by decide⟩
    · rcases x with _ | n | s2 | l2
      · simp [ep_nonneg] at hn
      · simp only [ep_nonneg, decide_eq_true_eq] at hn
        simp only [get_episode, Except.ok.injEq] at h
        subst h
        rw [hint n hn]
        exact hpad _
      · simp [ep_nonneg] at hn
      · simp [ep_nonneg] at hn

/-- C8 counterexample: a validated match whose `from` field is 360000
seconds (100 hours) yields a returned (non-None) result whose position
marker `"100:00:00"` is not three two-digit fields. -/
theorem C8_counterexample :
    identify_result ['T'] ⟨.pyint 3, .num 360000⟩ =
      some ⟨['T'], ['0', '3'], ['1', '0', '0', ':', '0', '0', ':', '0', '0']⟩ ∧
    isHHMMSS ['1', '0', '0', ':', '0', '0', ':', '0', '0'] = false := by
  constructor
  · rfl
  · decide

/-- C8 (amended).  Every non-None result of `identify_image` whose episode
field is `None`/empty-list/nonnegative int and whose `from` field is
absent, unparseable, or below 100 hours carries an all-digit episode string
of length at least 2 (with `"00"` for `None`/empty list) and an `HH:MM:SS`
position marker equal to the floor h/m/s decomposition (with `"00:00:00"`
when the value is absent or unparseable). -/
theorem C8_result_formats (title : List Char) (m : MatchData) (r : RecogOut)
    (h : identify_result title m = some r)
    (hep : ep_nonneg m.episode = true) (hts : seconds_ok m.fromv = true) :
    (∀ c ∈ r.episode, c.isDigit = true) ∧ 2 ≤ r.episode.length ∧
    isHHMMSS r.timestamp = true ∧
    (m.episode = .pynone → r.episode = ['0', '0']) ∧
    (m.fromv = .pynone → r.timestamp = zero8) ∧
    (m.fromv = .badval → r.timestamp = zero8) ∧
    (∀ k : Nat, m.fromv = .num (Int.ofNat k) →
      r.timestamp = padZeros 2 (natDec (k / 3600)) ++ ':' ::
        (padZeros 2 (natDec (k % 3600 / 60)) ++ ':' :: padZeros 2 (natDec (k % 60)))) := by
  unfold identify_result at h
  rcases he : get_episode m.episode with _ | s
  · rw [he] at h
    cases h
  · rw [he] at h
    simp only [Option.some.injEq] at h
    subst h
    obtain ⟨hd, hl⟩ := get_episode_digits m.episode s hep he
    refine ⟨hd, hl, format_timestamp_HHMMSS m.fromv hts, ?_, ?_, ?_, ?_⟩
    · intro hnone
      rw [hnone] at he
      simpa [get_episode] using he.symm
    · intro hfrom
      simp [hfrom, format_timestamp]
    · intro hfrom
      simp [hfrom, format_timestamp]
    · intro k hfrom
      show format_timestamp m.fromv = _
      rw [hfrom]
      have e1 : Int.fdiv (Int.ofNat k) 3600 = Int.ofNat (k / 3600) := fdiv_ofNat k 3600
      have e2 : Int.fmod (Int.ofNat k) 3600 = Int.ofNat (k % 3600) := fmod_ofNat k 3600
      have e3 : Int.fdiv (Int.ofNat (k % 3600)) 60 = Int.ofNat (k % 3600 / 60) :=
        fdiv_ofNat (k % 3600) 60
      have e4 : Int.fmod (Int.ofNat k) 60 = Int.ofNat (k % 60) := fmod_ofNat k 60
      show pyFmtInt 2 (Int.fdiv (Int.ofNat k) 3600) ++ ':' ::
        (pyFmtInt 2 (Int.fdiv (Int.fmod (Int.ofNat k) 3600) 60) ++ ':' ::
          pyFmtInt 2 (Int.fmod (Int.ofNat k) 60)) = _
      rw [e1, e2, e3, e4, pyFmtInt_ofNat, pyFmtInt_ofNat, pyFmtInt_ofNat]

/-- Witness for C8 at episode 7, `from` 4000 seconds. -/
theorem C8_result_formats_witness :
    (identify_result ['T'] ⟨.pyint 7, .num 4000⟩ =
      some ⟨['T'], ['0', '7'], ['0', '1', ':', '0', '6', ':', '4', '0']⟩ ∧
      ep_nonneg (PyVal.pyint 7) = true ∧ seconds_ok (PySeconds.num 4000) = true) ∧
    isHHMMSS (['0', '1', ':', '0', '6', ':', '4', '0'] : List Char) = true := by
  refine ⟨⟨rfl, by decide, by decide⟩, ?_⟩
  have := C8_result_formats ['T'] ⟨.pyint 7, .num 4000⟩
    ⟨['T'], ['0', '7'], ['0', '1', ':', '0', '6', ':', '4', '0']⟩ rfl (by decide) (by decide)
  exact this.2.2.1

lemma dropLit_append : ∀ p l : List Char, dropLit p (p ++ l) = some l := by
  intro p
  induction p with
  | nil => intro l; rfl
  | cons c cs ih => intro l; simp [dropLit, ih]

lemma takeWhile_digits_append (ds r2 : List Char) (h : ∀ c ∈ ds, c.isDigit = true) :
    (ds ++ '_' :: r2).takeWhile Char.isDigit = ds ∧
    (ds ++ '_' :: r2).dropWhile Char.isDigit = '_' :: r2 := by
  induction ds with
  | nil => constructor <;> simp [List.takeWhile, List.dropWhile]
  | cons c cs ih =>
    have hc : c.isDigit = true := h c (by simp)
    have ih2 := ih (fun x hx => h x (by simp [hx]))
    constructor
    · simp [List.takeWhile, hc, ih2.1]
    · simp [List.dropWhile, hc, ih2.2]

lemma coreMatch_build (ds : List Char) (a b c d e f : Char)
    (hds : ∀ x ∈ ds, x.isDigit = true) (hne : ds ≠ [])
    (ha : a.isDigit = true) (hb : b.isDigit = true) (hc : c.isDigit = true)
    (hd : d.isDigit = true) (he : e.isDigit = true) (hf : f.isDigit = true) :
    coreMatch (episodeTag ++ (ds ++ '_' :: ([a, b, ':', c, d, ':', e, f] ++ jpgTag))) = true := by
  have h1 := takeWhile_digits_append ds ([a, b, ':', c, d, ':', e, f] ++ jpgTag) hds
  have hjpg : dropLit jpgTag jpgTag = some [] := by decide
  unfold coreMatch
  rw [dropLit_append]
  simp only [h1.1, h1.2]
  have htail : tailMatch ([a, b, ':', c, d, ':', e, f] ++ jpgTag) = true := by
    show tailMatch (a :: b :: ':' :: c :: d :: ':' :: e :: f :: jpgTag) = true
    simp [tailMatch, ha, hb, hc, hd, he, hf, hjpg]
  rw [htail]
  simp [hne]

lemma pat1_build (label core : List Char)
    (hl : label.all (fun c => c != '\n') = true) (hcore : coreMatch core = true) :
    pat1Match (label ++ core) = true := by
  unfold pat1Match
  rw [List.any_eq_true]
  refine ⟨label.length, List.mem_range.mpr (by simp; omega), ?_⟩
  rw [List.take_left, List.drop_left, hl, hcore]
  rfl

lemma mem_sanitize_cases {c : Char} {t : List Char} (h : c ∈ sanitize t) :
    c = '_' ∨ c ∈ t := by
  simp only [sanitize, List.mem_map] at h
  obtain ⟨x, hx, hc⟩ := h
  by_cases hx2 : illegal_chars.contains x
  · rw [if_pos hx2] at hc
    exact Or.inl hc.symm
  · rw [if_neg hx2] at hc
    subst hc
    exact Or.inr hx

lemma clean_title_no_newline (t : List Char) (ht : t.all (fun c => c != '\n') = true) :
    (clean_title t).all (fun c => c != '\n') = true := by
  rw [List.all_eq_true] at ht ⊢
  intro c hc
  unfold clean_title at hc
  simp only at hc
  have hmem : c = '_' ∨ c = '.' ∨ c ∈ t := by
    by_cases hlen : 100 < (sanitize t).length
    · rw [if_pos hlen] at hc
      rcases List.mem_append.mp (mem_py_strip hc) with h2 | h2
      · rcases mem_sanitize_cases (List.take_subset _ _ h2) with h3 | h3
        · exact Or.inl h3
        · exact Or.inr (Or.inr h3)
      · exact Or.inr (Or.inl (by simpa [dots3] using h2))
    · rw [if_neg hlen] at hc
      rcases mem_sanitize_cases (mem_py_strip hc) with h3 | h3
      · exact Or.inl h3
      · exact Or.inr (Or.inr h3)
  rcases hmem with h2 | h2 | h2
  · subst h2; decide
  · subst h2; decide
  · exact ht c h2

/-- C7 counterexample: `_clean_title` passes newlines through (only
`<>:"/\|?*` are replaced), and Python `.` does not match `'\n'`, so the
name built from the label `"a\nb"` — a genuine `_clean_title` output —
episode 7 and timestamp 0 escapes `_is_already_processed`. -/
theorem C7_counterexample :
    clean_title ['a', '\n', 'b'] = ['a', '\n', 'b'] ∧
    get_episode (.pyint 7) = .ok ['0', '7'] ∧
    format_timestamp (.num 0) = zero8 ∧
    is_already_processed
      (new_name ⟨['a', '\n', 'b'], ['0', '7'], zero8⟩) = false := by
  refine ⟨by decide, by rfl, by rfl, by decide⟩

/-- C7 (amended).  For every cleaned title containing no newline, every
episode string produced by `_get_episode` from a `None`/empty-list/
nonnegative-int episode value, and every position string produced by
`_format_timestamp` from an absent, unparseable, or below-100-hours value,
the assembled `{label}_Episode{ep}_{ts}.jpg` name matches
`_is_already_processed`, so a renamed item is skipped by a later scan. -/
theorem C7_name_roundtrip (t epStr : List Char) (ep : PyVal) (sv : PySeconds)
    (ht : t.all (fun c => c != '\n') = true)
    (hep : ep_nonneg ep = true)
    (he : get_episode ep = .ok epStr)
    (hsv : seconds_ok sv = true) :
    is_already_processed
      (new_name ⟨clean_title t, epStr, format_timestamp sv⟩) = true := by
  obtain ⟨hdig, hlen⟩ := get_episode_digits ep epStr hep he
  have hne : epStr ≠ [] := by
    intro h
    rw [h] at hlen
    simp at hlen
  obtain ⟨a, b, c, d, e, f, hshape, ha, hb, hc, hd, he2, hf⟩ := format_timestamp_shape sv hsv
  have hcore := coreMatch_build epStr a b c d e f hdig hne ha hb hc hd he2 hf
  have hlbl := clean_title_no_newline t ht
  have hname : new_name ⟨clean_title t, epStr, format_timestamp sv⟩ =
      clean_title t ++ (episodeTag ++ (epStr ++ '_' :: ([a, b, ':', c, d, ':', e, f] ++ jpgTag))) := by
    show clean_title t ++ episodeTag ++ epStr ++ '_' :: format_timestamp sv ++ jpgTag = _
    rw [hshape]
    simp
  rw [hname]
  have hpat := pat1_build (clean_title t)
    (episodeTag ++ (epStr ++ '_' :: ([a, b, ':', c, d, ':', e, f] ++ jpgTag))) hlbl hcore
  unfold is_already_processed
  rw [hpat]
  rfl

/-- Witness for C7 on the title `"T"`, episode 7, timestamp 0. -/
theorem C7_name_roundtrip_witness :
    ((['T'] : List Char).all (fun c => c != '\n') = true ∧
      ep_nonneg (PyVal.pyint 7) = true ∧
      get_episode (PyVal.pyint 7) = .ok ['0', '7'] ∧
      seconds_ok (PySeconds.num 0) = true) ∧
    is_already_processed
      (new_name ⟨clean_title ['T'], ['0', '7'], format_timestamp (PySeconds.num 0)⟩) = true := by
  refine ⟨⟨by decide, by decide, by rfl, by decide⟩, ?_⟩
  exact C7_name_roundtrip ['T'] ['0', '7'] (.pyint 7) (.num 0) (by decide) (by decide) rfl (by decide)

/-- C9.  `load_progress` yields the empty state (empty id set, zero
counters) when the progress file is absent or unreadable, and a failing
write inside `save_progress` is caught by its `except` clause, so neither
raises to the caller and the run continues on the in-memory state. -/
theorem C9_persistence_fails_open (f : LoadInput)
    (h : f = LoadInput.absent ∨ f = LoadInput.corrupt) :
    load_progress f = empty_loaded ∧
    (∀ (files : List (List Char)) (pc ec : Nat) (ts : List Char) (ok : Bool),
      (save_progress_caught files pc ec ts ok).isOk = true) := by
  constructor
  · rcases h with h | h <;> subst h <;> rfl
  · intro files pc ec ts ok
    cases ok <;> rfl

/-- Witness for C9 on a corrupt progress file and a failing write. -/
theorem C9_persistence_fails_open_witness :
    (LoadInput.corrupt = LoadInput.absent ∨ LoadInput.corrupt = LoadInput.corrupt) ∧
    load_progress LoadInput.corrupt = empty_loaded ∧
    (save_progress_caught [['a']] 1 2 ['t'] false).isOk = true := by
  have h := C9_persistence_fails_open LoadInput.corrupt (Or.inr rfl)
  exact ⟨Or.inr rfl, h.1, h.2 [['a']] 1 2 ['t'] false⟩

lemma fsGet_fsSet (fs : FS) (p c : List Char) : fsGet (fsSet fs p c) p = some c := by
  induction fs with
  | nil => simp [fsSet, fsGet]
  | cons e t ih =>
    obtain ⟨q, d⟩ := e
    by_cases h : q = p
    · simp [fsSet, fsGet, h]
    · simp [fsSet, fsGet, h, ih]

/-- C4 counterexample: the `save_progress` trace truncates and writes
`progress.json` in place, performs no atomic replace, and crashing right
after the truncating `open` leaves the file empty — the previously valid
content `"OLD"` is lost, violating "a torn write never corrupts the
previously persisted state". -/
theorem C4_counterexample :
    writes_target_directly (save_progress_ops [['a']] 1 0 ['t']) progress_path = true ∧
    replaces_into (save_progress_ops [['a']] 1 0 ['t']) progress_path = false ∧
    crash_safe (save_progress_ops [['a']] 1 0 ['t']) progress_path
      [(progress_path, ['O', 'L', 'D'])] = false ∧
    fsGet (execOps [(progress_path, ['O', 'L', 'D'])]
      ((save_progress_ops [['a']] 1 0 ['t']).take 1)) progress_path = some [] := by
  refine ⟨by decide, by decide, by decide, by decide⟩

/-- C4 (amended).  `save_progress` persists the full serialized state by
truncating `progress.json` in place and writing into it: a completed call
leaves the file holding exactly the serialized current state, but the write
goes straight to the target with no temporary staging and no atomic
replace. -/
theorem C4_direct_write (files : List (List Char)) (pc ec : Nat) (ts : List Char) (fs : FS) :
    fsGet (execOps fs (save_progress_ops files pc ec ts)) progress_path =
      some (serialize_progress files pc ec ts) ∧
    writes_target_directly (save_progress_ops files pc ec ts) progress_path = true ∧
    replaces_into (save_progress_ops files pc ec ts) progress_path = false := by
  refine ⟨?_, ?_, ?_⟩
  · simp [execOps, save_progress_ops, execOp, fsGet_fsSet]
  · simp [writes_target_directly, save_progress_ops]
  · simp [replaces_into, save_progress_ops]

/-- C1 counterexample: two tasks calling `_rate_limit` concurrently (as the
pipeline does with `CONCURRENT_LIMIT = 5`) both read the same
`_last_request_time = 0`, both compute the same delay, sleep side by side,
and return at loop time 10 simultaneously: consecutive acquisitions are 0
apart, below the configured interval 10.  The schedule is the one asyncio
itself produces for two gathered tasks. -/
theorem C1_counterexample :
    (RateLimiter.exec twoTasks raceSchedule).acqs = [10, 10] ∧
    gaps (RateLimiter.exec twoTasks raceSchedule).acqs = [0] ∧
    0 < twoTasks.limit := by
  refine ⟨by decide, by decide, by decide⟩

lemma rate_limit_return_ge (limit last now : Nat) (h : last ≤ now) :
    last + limit ≤ rate_limit_return limit last now := by
  unfold rate_limit_return
  split_ifs with h2
  · omega
  · omega

/-- C1 (amended).  For a single sequential caller the spacing does hold:
`_rate_limit` leaves `_last_request_time` equal to the time it returns, and
a next call entered at any later loop time returns at least `interval`
after the previous return. -/
theorem C1_sequential_spacing (limit last now1 now2 : Nat)
    (h2 : rate_limit_return limit last now1 ≤ now2) :
    rate_limit_return limit last now1 + limit ≤
      rate_limit_return limit (rate_limit_return limit last now1) now2 :=
  rate_limit_return_ge limit _ now2 h2

/-- Witness for C1 with interval 10: first call at loop time 3 returns at
10, a second call at loop time 12 returns at 20. -/
theorem C1_sequential_spacing_witness :
    rate_limit_return 10 0 3 ≤ 12 ∧
    rate_limit_return 10 0 3 + 10 ≤ rate_limit_return 10 (rate_limit_return 10 0 3) 12 :=
  ⟨by decide, C1_sequential_spacing 10 0 3 12 (by decide)⟩

lemma psi_frame (st : MgrState) (it : RunItem) :
    ((process_single_image st it).1).done = st.done ∧
    ((process_single_image st it).1).pagesFetched = st.pagesFetched ∧
    ((process_single_image st it).1).pagesProcessed = st.pagesProcessed ∧
    ((process_single_image st it).1).skipped = st.skipped := by
  obtain ⟨i, n, oc⟩ := it
  cases oc with
  | exn => simp [process_single_image]; split_ifs <;> simp
  | noMatch => simp [process_single_image]; split_ifs <;> simp
  | ok r rOk sOk => simp [process_single_image]; split_ifs <;> simp

lemma psi_files (st : MgrState) (it : RunItem) :
    ∃ l, ((process_single_image st it).1).processedFiles = st.processedFiles ++ l ∧
      ∀ x ∈ l, x = it.id ∧ it.outcome.success = true := by
  obtain ⟨i, n, oc⟩ := it
  cases oc with
  | exn =>
    refine ⟨[], by simp [process_single_image]; split_ifs <;> simp, by simp⟩
  | noMatch =>
    refine ⟨[], by simp [process_single_image]; split_ifs <;> simp, by simp⟩
  | ok r rOk sOk =>
    by_cases hmem : i ∈ st.processedFiles
    · exact ⟨[], by simp [process_single_image, hmem], by simp⟩
    · by_cases hr : rOk
      · by_cases hs : sOk
        · refine ⟨[i], ?_, ?_⟩
          · simp [process_single_image, hmem, hr, hs]
          · subst hr hs
            simp [ItemOutcome.success]
        · exact ⟨[], by simp [process_single_image, hmem, hr, hs], by simp⟩
      · exact ⟨[], by simp [process_single_image, hmem, hr], by simp⟩

lemma psi_files_mono (st : MgrState) (it : RunItem) :
    st.processedFiles ⊆ ((process_single_image st it).1).processedFiles := by
  obtain ⟨l, hl, _⟩ := psi_files st it
  rw [hl]
  exact List.subset_append_left _ _

lemma psi_files_sub (st : MgrState) (it : RunItem) (x : List Char)
    (h : x ∈ ((process_single_image st it).1).processedFiles) :
    x ∈ st.processedFiles ∨ (x = it.id ∧ it.outcome.success = true) := by
  obtain ⟨l, hl, hprop⟩ := psi_files st it
  rw [hl] at h
  rcases List.mem_append.mp h with h | h
  · exact Or.inl h
  · exact Or.inr (hprop x h)

lemma psi_identified (st : MgrState) (it : RunItem) :
    ((process_single_image st it).1).identified = st.identified ∨
    (((process_single_image st it).1).identified = st.identified ++ [it] ∧
      it.id ∉ st.processedFiles) := by
  obtain ⟨i, n, oc⟩ := it
  by_cases hmem : i ∈ st.processedFiles
  · left
    cases oc <;> simp [process_single_image, hmem]
  · right
    refine ⟨?_, hmem⟩
    cases oc with
    | exn => simp [process_single_image, hmem]
    | noMatch => simp [process_single_image, hmem]
    | ok r rOk sOk => simp [process_single_image, hmem]; split_ifs <;> simp

lemma psi_saves (st : MgrState) (it : RunItem) (e : SaveEvent)
    (h : e ∈ ((process_single_image st it).1).saves) :
    e ∈ st.saves ∨ e.files = ((process_single_image st it).1).processedFiles := by
  obtain ⟨i, n, oc⟩ := it
  cases oc with
  | exn =>
    left
    revert h
    simp [process_single_image]; split_ifs <;> simp
  | noMatch =>
    left
    revert h
    simp [process_single_image]; split_ifs <;> simp
  | ok r rOk sOk =>
    by_cases hmem : i ∈ st.processedFiles
    · left; revert h; simp [process_single_image, hmem]
    · by_cases hr : rOk
      · by_cases hs : sOk
        · revert h
          simp [process_single_image, hmem, hr, hs]
          rintro (h | h)
          · exact Or.inl h
          · subst h; exact Or.inr rfl
        · left; revert h; simp [process_single_image, hmem, hr, hs]
      · left; revert h; simp [process_single_image, hmem, hr]

lemma psi_counts (st : MgrState) (it : RunItem) :
    ∃ d ≤ 1,
      ((process_single_image st it).1).processedCount = st.processedCount + d ∧
      saves_ai ((process_single_image st it).1) = saves_ai st + d ∧
      saves_ap ((process_single_image st it).1) = saves_ap st := by
  obtain ⟨i, n, oc⟩ := it
  cases oc with
  | exn =>
    refine ⟨0, by omega, ?_⟩
    simp [process_single_image]; split_ifs <;> simp [saves_ai, saves_ap]
  | noMatch =>
    refine ⟨0, by omega, ?_⟩
    simp [process_single_image]; split_ifs <;> simp [saves_ai, saves_ap]
  | ok r rOk sOk =>
    by_cases hmem : i ∈ st.processedFiles
    · exact ⟨0, by omega, by simp [process_single_image, hmem, saves_ai, saves_ap]⟩
    · by_cases hr : rOk
      · by_cases hs : sOk
        · refine ⟨1, by omega, ?_, ?_, ?_⟩
          · simp [process_single_image, hmem, hr, hs]
          · simp [process_single_image, hmem, hr, hs, saves_ai]
          · simp [process_single_image, hmem, hr, hs, saves_ap]
        · exact ⟨0, by omega, by simp [process_single_image, hmem, hr, hs, saves_ai, saves_ap]⟩
      · exact ⟨0, by omega, by simp [process_single_image, hmem, hr, saves_ai, saves_ap]⟩

lemma pb_cons (st : MgrState) (it : RunItem) (l : List RunItem) :
    process_batch st (it :: l) = process_batch ((process_single_image st it).1) l := rfl

lemma pb_frame : ∀ (l : List RunItem) (st : MgrState),
    (process_batch st l).done = st.done ∧
    (process_batch st l).pagesFetched = st.pagesFetched ∧
    (process_batch st l).pagesProcessed = st.pagesProcessed := by
  intro l
  induction l with
  | nil => intro st; exact ⟨rfl, rfl, rfl⟩
  | cons it l ih =>
    intro st
    rw [pb_cons]
    obtain ⟨h1, h2, h3, _⟩ := psi_frame st it
    obtain ⟨g1, g2, g3⟩ := ih ((process_single_image st it).1)
    exact ⟨g1.trans h1, g2.trans h2, g3.trans h3⟩

lemma pb_files_mono : ∀ (l : List RunItem) (st : MgrState),
    st.processedFiles ⊆ (process_batch st l).processedFiles := by
  intro l
  induction l with
  | nil => intro st; exact fun x h => h
  | cons it l ih =>
    intro st
    rw [pb_cons]
    exact fun x h => ih _ (psi_files_mono st it h)

lemma pb_files_sub : ∀ (l : List RunItem) (st : MgrState) (x : List Char),
    x ∈ (process_batch st l).processedFiles →
    x ∈ st.processedFiles ∨ ∃ it ∈ l, x = it.id ∧ it.outcome.success = true := by
  intro l
  induction l with
  | nil => intro st x h; exact Or.inl h
  | cons it l ih =>
    intro st x h
    rw [pb_cons] at h
    rcases ih _ x h with h2 | ⟨it2, hmem, heq, hsucc⟩
    · rcases psi_files_sub st it x h2 with h3 | ⟨heq, hsucc⟩
      · exact Or.inl h3
      · exact Or.inr ⟨it, by simp, heq, hsucc⟩
    · exact Or.inr ⟨it2, by simp [hmem], heq, hsucc⟩

lemma pb_counts : ∀ (l : List RunItem) (st : MgrState),
    ∃ d, (process_batch st l).processedCount = st.processedCount + d ∧
      saves_ai (process_batch st l) = saves_ai st + d ∧
      saves_ap (process_batch st l) = saves_ap st := by
  intro l
  induction l with
  | nil => intro st; exact ⟨0, rfl, rfl, rfl⟩
  | cons it l ih =>
    intro st
    rw [pb_cons]
    obtain ⟨d1, _, hp1, ha1, hap1⟩ := psi_counts st it
    obtain ⟨d2, hp2, ha2, hap2⟩ := ih ((process_single_image st it).1)
    exact ⟨d1 + d2, by omega, by omega, by omega⟩

lemma pb_c5 (S0 : List (List Char)) : ∀ (l : List RunItem) (st : MgrState),
    S0 ⊆ st.processedFiles →
    (∀ j ∈ st.identified, j.id ∉ S0 ∧ is_already_processed j.name = false) →
    (∀ e ∈ st.saves, S0 ⊆ e.files) →
    (∀ it ∈ l, is_already_processed it.name = false) →
    S0 ⊆ (process_batch st l).processedFiles ∧
    (∀ j ∈ (process_batch st l).identified,
      j.id ∉ S0 ∧ is_already_processed j.name = false) ∧
    (∀ e ∈ (process_batch st l).saves, S0 ⊆ e.files) := by
  intro l
  induction l with
  | nil => intro st h1 h2 h3 _; exact ⟨h1, h2, h3⟩
  | cons it l ih =>
    intro st h1 h2 h3 hl
    rw [pb_cons]
    have hstep1 : S0 ⊆ ((process_single_image st it).1).processedFiles :=
      fun x hx => psi_files_mono st it (h1 hx)
    have hstep2 : ∀ j ∈ ((process_single_image st it).1).identified,
        j.id ∉ S0 ∧ is_already_processed j.name = false := by
      intro j hj
      rcases psi_identified st it with hid | ⟨hid, hnot⟩
      · rw [hid] at hj
        exact h2 j hj
      · rw [hid] at hj
        rcases List.mem_append.mp hj with hj2 | hj2
        · exact h2 j hj2
        · have hji : j = it := by simpa using hj2
          rw [hji]
          exact ⟨fun hin => hnot (h1 hin), hl it (by simp)⟩
    have hstep3 : ∀ e ∈ ((process_single_image st it).1).saves, S0 ⊆ e.files := by
      intro e he
      rcases psi_saves st it e he with he2 | he2
      · exact h3 e he2
      · rw [he2]
        exact hstep1
    exact ih _ hstep1 hstep2 hstep3 (fun x hx => hl x (by simp [hx]))

lemma pbs_join : ∀ (bs : List (List RunItem)) (st : MgrState),
    process_batches st bs = process_batch st bs.flatten := by
  intro bs
  induction bs with
  | nil => intro st; rfl
  | cons b bs ih =>
    intro st
    show process_batches (process_batch st b) bs = process_batch st ((b :: bs).flatten)
    rw [ih, List.flatten_cons]
    unfold process_batch
    rw [List.foldl_append]

lemma chunk_flatten (k : Nat) (hk : 0 < k) : ∀ (fuel : Nat) (l : List RunItem),
    l.length ≤ fuel → (chunkAux fuel k l).flatten = l := by
  intro fuel
  induction fuel with
  | zero =>
    intro l hl
    have : l = [] := List.eq_nil_of_length_eq_zero (by omega)
    subst this
    rfl
  | succ f ih =>
    intro l hl
    cases l with
    | nil => rfl
    | cons x xs =>
      show (List.take k (x :: xs) :: chunkAux f k (List.drop k (x :: xs))).flatten = _
      rw [List.flatten_cons]
      have hlen : (x :: xs).length = xs.length + 1 := List.length_cons x xs
      rw [ih (List.drop k (x :: xs)) (by rw [List.length_drop]; omega)]
      exact List.take_append_drop k (x :: xs)

lemma chunk_mem (k : Nat) : ∀ (fuel : Nat) (l b : List RunItem) (x : RunItem),
    b ∈ chunkAux fuel k l → x ∈ b → x ∈ l := by
  intro fuel
  induction fuel with
  | zero => intro l b x hb; simp [chunkAux] at hb
  | succ f ih =>
    intro l b x hb hx
    cases l with
    | nil => simp [chunkAux] at hb
    | cons y ys =>
      rcases List.mem_cons.mp hb with hb2 | hb2
      · subst hb2
        exact List.take_subset _ _ hx
      · exact List.drop_subset _ _ (ih _ b x hb2 hx)

lemma run_loop_succ (limit : Nat) (pages : List (List RunItem)) (f k : Nat) (st : MgrState) :
    run_loop limit pages (f + 1) k st =
      if (fetch_page pages k).isEmpty then
        { st with pagesFetched := st.pagesFetched + 1, done := true }
      else if (page_filter st.processedFiles (fetch_page pages k)).isEmpty then
        { st with pagesFetched := st.pagesFetched + 1,
                  skipped := st.skipped + ((fetch_page pages k).length -
                    (page_filter st.processedFiles (fetch_page pages k)).length),
                  done := true }
      else
        run_loop limit pages f (k + 1)
          (page_save (process_batches
            { st with pagesFetched := st.pagesFetched + 1,
                      skipped := st.skipped + ((fetch_page pages k).length -
                        (page_filter st.processedFiles (fetch_page pages k)).length) }
            (chunk limit (page_filter st.processedFiles (fetch_page pages k))))) := rfl

lemma page_filter_prop (files : List (List Char)) (page : List RunItem) (it : RunItem)
    (h : it ∈ page_filter files page) :
    it ∈ page ∧ it.id ∉ files ∧ is_already_processed it.name = false := by
  simp only [page_filter, List.mem_filter, Bool.and_eq_true, decide_eq_true_eq,
    Bool.not_eq_true'] at h
  exact ⟨h.1, h.2.1, h.2.2⟩

lemma page_save_fields (st : MgrState) :
    (page_save st).processedFiles = st.processedFiles ∧
    (page_save st).identified = st.identified ∧
    (page_save st).processedCount = st.processedCount ∧
    (page_save st).done = st.done ∧
    (page_save st).pagesFetched = st.pagesFetched ∧
    (page_save st).pagesProcessed = st.pagesProcessed + 1 ∧
    saves_ai (page_save st) = saves_ai st ∧
    saves_ap (page_save st) = saves_ap st + 1 := by
  refine ⟨rfl, rfl, rfl, rfl, rfl, rfl, ?_, ?_⟩
  · simp [page_save, saves_ai, List.filter_append]
  · simp [page_save, saves_ap, List.filter_append]

lemma run_c5 (S0 : List (List Char)) (limit : Nat) (pages : List (List RunItem)) :
    ∀ (fuel k : Nat) (st : MgrState),
    S0 ⊆ st.processedFiles →
    (∀ j ∈ st.identified, j.id ∉ S0 ∧ is_already_processed j.name = false) →
    (∀ e ∈ st.saves, S0 ⊆ e.files) →
    S0 ⊆ (run_loop limit pages fuel k st).processedFiles ∧
    (∀ j ∈ (run_loop limit pages fuel k st).identified,
      j.id ∉ S0 ∧ is_already_processed j.name = false) ∧
    (∀ e ∈ (run_loop limit pages fuel k st).saves, S0 ⊆ e.files) := by
  intro fuel
  induction fuel with
  | zero => intro k st h1 h2 h3; exact ⟨h1, h2, h3⟩
  | succ f ih =>
    intro k st h1 h2 h3
    rw [run_loop_succ]
    split_ifs with hemp hfilt
    · exact ⟨h1, h2, h3⟩
    · exact ⟨h1, h2, h3⟩
    · set unproc := page_filter st.processedFiles (fetch_page pages k) with hunproc
      set st1 : MgrState :=
        { st with pagesFetched := st.pagesFetched + 1,
                  skipped := st.skipped + ((fetch_page pages k).length - unproc.length) } with hst1
      have hitems : ∀ it ∈ (chunk limit unproc).flatten, is_already_processed it.name = false := by
        intro it hit
        obtain ⟨b, hb, hitb⟩ := List.mem_flatten.mp hit
        have := chunk_mem limit _ unproc b it hb hitb
        exact (page_filter_prop _ _ _ this).2.2
      have hbat := pb_c5 S0 ((chunk limit unproc).flatten) st1 h1 h2 h3 hitems
      rw [← pbs_join] at hbat
      set stB := process_batches st1 (chunk limit unproc) with hstB
      apply ih
      · exact hbat.1
      · exact hbat.2.1
      · intro e he
        rcases List.mem_append.mp he with he2 | he2
        · exact hbat.2.2 e he2
        · have : e.files = stB.processedFiles := by
            simp only [List.mem_singleton] at he2
            rw [he2]
          rw [this]
          exact hbat.1

/-- C5.  An item whose id is in the loaded processed set, or whose current
name matches one of the two finished-name patterns, is never submitted to
`identify_image` during the run; moreover the loaded set is contained in
the in-memory set and in every persisted snapshot, so a later run resuming
from any flush of this run skips it too. -/
theorem C5_skip_invariant (limit fuel pc ec : Nat) (pages : List (List RunItem))
    (files0 : List (List Char)) (x : RunItem)
    (hx : x.id ∈ files0 ∨ is_already_processed x.name = true) :
    x ∉ (process_folder limit pages fuel files0 pc ec).identified ∧
    files0 ⊆ (process_folder limit pages fuel files0 pc ec).processedFiles ∧
    (∀ e ∈ (process_folder limit pages fuel files0 pc ec).saves, files0 ⊆ e.files) := by
  have h := run_c5 files0 limit pages fuel 0 (init_state files0 pc ec)
    (fun y hy => hy)
    (by intro j hj; simp [init_state] at hj)
    (by intro e he; simp [init_state] at he)
  refine ⟨?_, h.1, h.2.2⟩
  intro hmem
  obtain ⟨hid, hname⟩ := h.2.1 x hmem
  rcases hx with hx | hx
  · exact hid hx
  · simp [hx] at hname

/-- Witness for C5: an item already in the loaded set is skipped. -/
theorem C5_skip_invariant_witness :
    (itA.id ∈ [['a']] ∨ is_already_processed itA.name = true) ∧
    itA ∉ (process_folder 2 [[itA], []] 3 [['a']] 7 0).identified := by
  have h := C5_skip_invariant 2 3 7 0 [[itA], []] [['a']] itA (Or.inl (by decide))
  exact ⟨Or.inl (by decide), h.1⟩

lemma save_events_partition : ∀ l : List SaveEvent,
    l.length = (l.filter (fun e => decide (e.ctx = SaveCtx.afterItem))).length +
      (l.filter (fun e => decide (e.ctx = SaveCtx.afterPage))).length := by
  intro l
  induction l with
  | nil => rfl
  | cons e t ih =>
    cases hc : e.ctx <;> simp [List.filter_cons, hc] <;> omega

lemma run_counts (limit : Nat) (pages : List (List RunItem)) :
    ∀ (fuel k : Nat) (st : MgrState),
    (run_loop limit pages fuel k st).processedCount + saves_ai st =
      st.processedCount + saves_ai (run_loop limit pages fuel k st) ∧
    (run_loop limit pages fuel k st).pagesProcessed + saves_ap st =
      st.pagesProcessed + saves_ap (run_loop limit pages fuel k st) := by
  intro fuel
  induction fuel with
  | zero => intro k st; exact ⟨rfl, rfl⟩
  | succ f ih =>
    intro k st
    rw [run_loop_succ]
    split_ifs with hemp hfilt
    · constructor <;> rfl
    · constructor <;> rfl
    · set unproc := page_filter st.processedFiles (fetch_page pages k) with hunproc
      set st1 : MgrState :=
        { st with pagesFetched := st.pagesFetched + 1,
                  skipped := st.skipped + ((fetch_page pages k).length - unproc.length) } with hst1
      obtain ⟨d, hpc, hai, hap⟩ := pb_counts ((chunk limit unproc).flatten) st1
      obtain ⟨_, _, hppB⟩ := pb_frame ((chunk limit unproc).flatten) st1
      rw [← pbs_join] at hpc hai hap hppB
      set stB := process_batches st1 (chunk limit unproc) with hstB
      obtain ⟨_, _, hpc2, _, _, hpp2, hai2, hap2⟩ := page_save_fields stB
      obtain ⟨ih1, ih2⟩ := ih (k + 1) (page_save stB)
      have e1 : saves_ai st1 = saves_ai st := rfl
      have e2 : saves_ap st1 = saves_ap st := rfl
      have e3 : st1.processedCount = st.processedCount := rfl
      have e4 : st1.pagesProcessed = st.pagesProcessed := rfl
      constructor
      · omega
      · omega

/-- C3 counterexample: one page holding one batch of two items that both
succeed produces three flushes — one inside `process_single_image` after
each successful item (the first with a snapshot taken mid-batch, before the
second item completed) and one per-page flush — not exactly one flush per
batch placed at the batch barrier. -/
theorem C3_counterexample :
    chunk 2 [itA, itC] = [[itA, itC]] ∧
    (process_folder 2 [[itA, itC], []] 10 [] 0 0).saves =
      [⟨SaveCtx.afterItem, [['a']], 1, 0⟩,
       ⟨SaveCtx.afterItem, [['a'], ['c']], 2, 0⟩,
       ⟨SaveCtx.afterPage, [['a'], ['c']], 2, 0⟩] ∧
    (process_folder 2 [[itA, itC], []] 10 [] 0 0).saves.length ≠
      (chunk 2 [itA, itC]).length := by
  refine ⟨by decide, by decide, by decide⟩

/-- C3 (amended).  Progress is flushed once after every successfully
processed item and once at the end of every loop iteration that ran its
batches: the processed counter equals its initial value plus the number of
item-level flushes, and the page-level flushes equal the number of
processed pages; every flush is one of these two kinds. -/
theorem C3_flush_accounting (limit fuel pc ec : Nat) (pages : List (List RunItem))
    (files0 : List (List Char)) :
    (process_folder limit pages fuel files0 pc ec).processedCount =
      pc + saves_ai (process_folder limit pages fuel files0 pc ec) ∧
    saves_ap (process_folder limit pages fuel files0 pc ec) =
      (process_folder limit pages fuel files0 pc ec).pagesProcessed ∧
    (process_folder limit pages fuel files0 pc ec).saves.length =
      saves_ai (process_folder limit pages fuel files0 pc ec) +
        saves_ap (process_folder limit pages fuel files0 pc ec) := by
  obtain ⟨h1, h2⟩ := run_counts limit pages fuel 0 (init_state files0 pc ec)
  have e1 : saves_ai (init_state files0 pc ec) = 0 := rfl
  have e2 : saves_ap (init_state files0 pc ec) = 0 := rfl
  have e3 : (init_state files0 pc ec).processedCount = pc := rfl
  have e4 : (init_state files0 pc ec).pagesProcessed = 0 := rfl
  refine ⟨by unfold process_folder; omega, by unfold process_folder; omega, ?_⟩
  exact save_events_partition _

/-- C6 (amended).  Every failure path of `process_single_image` (exception,
no match, rename failure, Firebase failure) increments the error counter by
exactly one, returns `None`, and leaves the id set and processed counter
untouched; in the 3-item scenario with one no-match item, one pass over the
listing ends with processed=2, errors=1 and the failed id absent from every
persisted snapshot (the loop itself, however, does not terminate — see the
counterexample). -/
theorem C6_failure_accounting (st : MgrState) (it : RunItem)
    (h1 : it.id ∉ st.processedFiles) (h2 : it.outcome.success = false) :
    ((process_single_image st it).2 = none ∧
     ((process_single_image st it).1).errorCount = st.errorCount + 1 ∧
     ((process_single_image st it).1).processedFiles = st.processedFiles ∧
     ((process_single_image st it).1).processedCount = st.processedCount) ∧
    ((process_folder 2 [[itA, itB, itC]] 1 [] 0 0).processedCount = 2 ∧
     (process_folder 2 [[itA, itB, itC]] 1 [] 0 0).errorCount = 1 ∧
     ['b'] ∉ (process_folder 2 [[itA, itB, itC]] 1 [] 0 0).processedFiles ∧
     ∀ e ∈ (process_folder 2 [[itA, itB, itC]] 1 [] 0 0).saves, ['b'] ∉ e.files) := by
  constructor
  · obtain ⟨i, n, oc⟩ := it
    simp only at h1 h2
    cases oc with
    | exn => simp [process_single_image, h1]
    | noMatch => simp [process_single_image, h1]
    | ok r rOk sOk =>
      cases rOk <;> cases sOk
      · simp [process_single_image, h1]
      · simp [process_single_image, h1]
      · simp [process_single_image, h1]
      · simp [ItemOutcome.success] at h2
  · refine ⟨by decide, by decide, by decide, by decide⟩

/-- Witness for C6 on a rename failure with a fresh id. -/
theorem C6_failure_accounting_witness :
    (((⟨['z'], ['z'], ItemOutcome.ok ⟨['T'], ['0', '1'], zero8⟩ false true⟩ : RunItem).id ∉
        (init_state [] 0 0).processedFiles) ∧
      (⟨['z'], ['z'], ItemOutcome.ok ⟨['T'], ['0', '1'], zero8⟩ false true⟩ :
        RunItem).outcome.success = false) ∧
    (process_single_image (init_state [] 0 0)
      ⟨['z'], ['z'], ItemOutcome.ok ⟨['T'], ['0', '1'], zero8⟩ false true⟩).2 = none ∧
    ((process_single_image (init_state [] 0 0)
      ⟨['z'], ['z'], ItemOutcome.ok ⟨['T'], ['0', '1'], zero8⟩ false true⟩).1).errorCount = 1 := by
  have h := C6_failure_accounting (init_state [] 0 0)
    ⟨['z'], ['z'], ItemOutcome.ok ⟨['T'], ['0', '1'], zero8⟩ false true⟩
    (by decide) (by decide)
  exact ⟨⟨by decide, by decide⟩, h.1.1, h.1.2.1⟩

lemma c6_scenario_no_exit : scenario_never_ends := by
  unfold scenario_never_ends
  intro fuel
  induction fuel with
  | zero => intro k st hb hdone; exact hdone
  | succ f ih =>
    intro k st hb hdone
    have hfetch : fetch_page [[itA, itB, itC]] k = [itA, itB, itC] := by
      cases k with
      | zero => rfl
      | succ k2 => simp [fetch_page]
    rw [run_loop_succ, hfetch]
    rw [if_neg (by decide)]
    have hbmem : itB ∈ page_filter st.processedFiles [itA, itB, itC] := by
      refine List.mem_filter.mpr ⟨by decide, ?_⟩
      simp only [Bool.and_eq_true, decide_eq_true_eq, Bool.not_eq_true']
      exact ⟨hb, by decide⟩
    rw [if_neg (by
      intro hiso
      rw [List.isEmpty_iff] at hiso
      rw [hiso] at hbmem
      simp at hbmem)]
    apply ih
    · intro hmem
      have hmem2 : ['b'] ∈ (process_batches
          { st with pagesFetched := st.pagesFetched + 1,
                    skipped := st.skipped + (([itA, itB, itC] : List RunItem).length -
                      (page_filter st.processedFiles [itA, itB, itC]).length) }
          (chunk 2 (page_filter st.processedFiles [itA, itB, itC]))).processedFiles := hmem
      rw [pbs_join] at hmem2
      rcases pb_files_sub _ _ _ hmem2 with h3 | ⟨it2, hit2, heq, hsucc⟩
      · exact hb h3
      · obtain ⟨b, hbch, hit2b⟩ := List.mem_flatten.mp hit2
        have hit2u := chunk_mem 2 _ _ b it2 hbch hit2b
        have hit2p := (page_filter_prop _ _ _ hit2u).1
        have : it2 = itA ∨ it2 = itB ∨ it2 = itC := by
          simpa using hit2p
        rcases this with h4 | h4 | h4 <;> subst h4
        · simp [itA] at heq
        · simp [itB, ItemOutcome.success] at hsucc
        · simp [itC] at heq
    · show (page_save _).done = false
      have hd := (pb_frame ((chunk 2 (page_filter st.processedFiles [itA, itB, itC])).flatten)
        { st with pagesFetched := st.pagesFetched + 1,
                  skipped := st.skipped + (([itA, itB, itC] : List RunItem).length -
                    (page_filter st.processedFiles [itA, itB, itC]).length) }).1
      rw [← pbs_join] at hd
      show (process_batches _ _).done = false
      rw [hd]
      exact hdone

/-- C6 counterexample, refuting "the run ends with processed=2, errors=1":
in the 3-item scenario the loop never terminates — once the offset passes
the single page, `_get_page_token` falls off the token chain, returns
`None`, and the listing serves the first page again; the no-match item
passes the filter every pass and is re-submitted forever, the error counter
growing by one per pass (1 after one pass, 4 after four). -/
theorem C6_counterexample :
    scenario_never_ends ∧
    (process_folder 2 [[itA, itB, itC]] 1 [] 0 0).errorCount = 1 ∧
    (process_folder 2 [[itA, itB, itC]] 1 [] 0 0).done = false ∧
    (process_folder 2 [[itA, itB, itC]] 4 [] 0 0).errorCount = 4 ∧
    (process_folder 2 [[itA, itB, itC]] 4 [] 0 0).done = false :=
  ⟨c6_scenario_no_exit, by decide, by decide, by decide, by decide⟩

lemma psi_success_eq (st : MgrState) (it : RunItem)
    (h1 : it.id ∉ st.processedFiles) (h2 : it.outcome.success = true) :
    ((process_single_image st it).1).processedFiles = st.processedFiles ++ [it.id] ∧
    ((process_single_image st it).1).identified = st.identified ++ [it] := by
  obtain ⟨i, n, oc⟩ := it
  simp only at h1 h2 ⊢
  cases oc with
  | exn => simp [ItemOutcome.success] at h2
  | noMatch => simp [ItemOutcome.success] at h2
  | ok r rOk sOk =>
    cases rOk <;> cases sOk
    · simp [ItemOutcome.success] at h2
    · simp [ItemOutcome.success] at h2
    · simp [ItemOutcome.success] at h2
    · simp [process_single_image, h1]

lemma pb_all_success : ∀ (l : List RunItem) (st : MgrState),
    (∀ it ∈ l, it.id ∉ st.processedFiles ∧ it.outcome.success = true) →
    (l.map RunItem.id).Nodup →
    (process_batch st l).processedFiles = st.processedFiles ++ l.map RunItem.id ∧
    (process_batch st l).identified = st.identified ++ l := by
  intro l
  induction l with
  | nil => intro st _ _; constructor <;> simp [process_batch]
  | cons it l ih =>
    intro st h hnd
    rw [pb_cons]
    obtain ⟨hf, hi⟩ := psi_success_eq st it (h it (by simp)).1 (h it (by simp)).2
    rw [List.map_cons] at hnd
    obtain ⟨hnotin, hnd2⟩ := List.nodup_cons.mp hnd
    have hstep : ∀ it2 ∈ l,
        it2.id ∉ ((process_single_image st it).1).processedFiles ∧
        it2.outcome.success = true := by
      intro it2 hit2
      rw [hf]
      refine ⟨?_, (h it2 (by simp [hit2])).2⟩
      intro hmem
      rcases List.mem_append.mp hmem with hm | hm
      · exact (h it2 (by simp [hit2])).1 hm
      · have heq : it2.id = it.id := by simpa using hm
        exact hnotin (by rw [← heq]; exact List.mem_map_of_mem _ hit2)
    obtain ⟨gf, gi⟩ := ih _ hstep hnd2
    rw [gf, gi, hf, hi]
    constructor
    · simp
    · simp

lemma run_all_fresh (limit : Nat) (hlimit : 0 < limit)
    (pages Q : List (List RunItem)) :
    ∀ (Pk : List (List RunItem)) (k fuel : Nat) (st : MgrState),
    pages.drop k = Pk ++ [] :: Q →
    (∀ p ∈ Pk, p ≠ []) →
    (∀ it ∈ Pk.flatten, it.id ∉ st.processedFiles ∧
       is_already_processed it.name = false ∧ it.outcome.success = true) →
    (Pk.flatten.map RunItem.id).Nodup →
    Pk.length < fuel →
    (run_loop limit pages fuel k st).pagesFetched = st.pagesFetched + (Pk.length + 1) ∧
    (run_loop limit pages fuel k st).identified = st.identified ++ Pk.flatten ∧
    (run_loop limit pages fuel k st).processedFiles =
      st.processedFiles ++ Pk.flatten.map RunItem.id ∧
    (run_loop limit pages fuel k st).done = true := by
  intro Pk
  induction Pk with
  | nil =>
    intro k fuel st hdrop _ _ _ hfuel
    cases fuel with
    | zero => omega
    | succ f =>
      have hget : pages[k]? = some [] := by
        have h0 := List.getElem?_drop pages k 0
        rw [hdrop] at h0
        simpa using h0.symm
      have hk : k < pages.length := (List.getElem?_eq_some.mp hget).1
      have hval : pages[k] = [] := by
        have h2 := List.getElem?_eq_getElem hk
        rw [h2] at hget
        simpa using hget
      have hfetch : fetch_page pages k = [] := by
        simp [fetch_page, hk, List.get_eq_getElem, hval]
      rw [run_loop_succ, hfetch]
      simp
  | cons p Pk' ih =>
    intro k fuel st hdrop hne hfresh hnd hfuel
    cases fuel with
    | zero => simp at hfuel
    | succ f =>
      have hget : pages[k]? = some p := by
        have h0 := List.getElem?_drop pages k 0
        rw [hdrop] at h0
        simpa using h0.symm
      have hk : k < pages.length := (List.getElem?_eq_some.mp hget).1
      have hval : pages[k] = p := by
        have h2 := List.getElem?_eq_getElem hk
        rw [h2] at hget
        simpa using hget
      have hfetch : fetch_page pages k = p := by
        simp [fetch_page, hk, List.get_eq_getElem, hval]
      have hpne : p ≠ [] := hne p (by simp)
      rw [run_loop_succ, hfetch]
      rw [if_neg (by intro hiso; exact hpne (List.isEmpty_iff.mp hiso))]
      have hfilt : page_filter st.processedFiles p = p := by
        apply List.filter_eq_self.mpr
        intro it hit
        have hfr := hfresh it (by simp [hit])
        simp only [Bool.and_eq_true, decide_eq_true_eq, Bool.not_eq_true']
        exact ⟨hfr.1, hfr.2.1⟩
      rw [hfilt]
      rw [if_neg (by intro hiso; exact hpne (List.isEmpty_iff.mp hiso))]
      set st1 : MgrState :=
        { st with pagesFetched := st.pagesFetched + 1,
                  skipped := st.skipped + (p.length - p.length) } with hst1
      have hchunk : (chunk limit p).flatten = p :=
        chunk_flatten limit hlimit p.length p (le_refl _)
      have hbeq : process_batches st1 (chunk limit p) = process_batch st1 p := by
        rw [pbs_join, hchunk]
      have hp_hyp : ∀ it ∈ p, it.id ∉ st1.processedFiles ∧ it.outcome.success = true := by
        intro it hit
        have hfr := hfresh it (by simp [hit])
        exact ⟨hfr.1, hfr.2.2⟩
      have hnd_split := List.nodup_append.mp (by
        rw [List.flatten_cons, List.map_append] at hnd
        exact hnd)
      obtain ⟨hBf, hBi⟩ := pb_all_success p st1 hp_hyp hnd_split.1
      rw [hbeq]
      set stB := process_batch st1 p with hstB
      have hdrop2 : pages.drop (k + 1) = Pk' ++ [] :: Q := by
        have hdd : (pages.drop k).drop 1 = pages.drop (k + 1) := by
          rw [List.drop_drop]
        rw [← hdd, hdrop]
        rfl
      have hfresh2 : ∀ it ∈ Pk'.flatten, it.id ∉ (page_save stB).processedFiles ∧
          is_already_processed it.name = false ∧ it.outcome.success = true := by
        intro it hit
        have hfr := hfresh it (by rw [List.flatten_cons]; exact List.mem_append.mpr (Or.inr hit))
        refine ⟨?_, hfr.2.1, hfr.2.2⟩
        show it.id ∉ stB.processedFiles
        rw [hBf]
        intro hmem
        rcases List.mem_append.mp hmem with hm | hm
        · exact hfr.1 hm
        · exact hnd_split.2.2 hm (List.mem_map_of_mem _ hit)
      obtain ⟨g1, g2, g3, g4⟩ := ih (k + 1) f (page_save stB) hdrop2
        (fun q hq => hne q (by simp [hq])) hfresh2 hnd_split.2.1
        (by simp at hfuel ⊢; omega)
      have epf : (page_save stB).pagesFetched = st.pagesFetched + 1 := by
        have h1 := (page_save_fields stB).2.2.2.2.1
        have h2 := (pb_frame p st1).2.1
        rw [h1, ← hstB] at *
        rw [hstB, h2]
      have eid : (page_save stB).identified = st.identified ++ p := by
        have h1 := (page_save_fields stB).2.1
        rw [h1, hBi]
      have efl : (page_save stB).processedFiles = st.processedFiles ++ p.map RunItem.id := by
        have h1 := (page_save_fields stB).1
        rw [h1, hBf]
      refine ⟨?_, ?_, ?_, g4⟩
      · rw [g1, epf]
        simp
        omega
      · rw [g2, eid, List.flatten_cons, List.append_assoc]
      · rw [g3, efl, List.flatten_cons, List.map_append, List.append_assoc]

/-- C2 counterexample: with page 1 containing only an already-processed
item, page 2 a fresh item and page 3 the first empty page, the run stops
after fetching page 1 alone — the non-empty page whose items were all
filtered out ends the run, and the fresh item of page 2, which lies before
the first empty page, is never fetched or considered. -/
theorem C2_counterexample :
    (∀ p ∈ [[itA], [itP]], p ≠ ([] : List RunItem)) ∧
    (process_folder 2 [[itA], [itP], []] 10 [['a']] 7 0).pagesFetched = 1 ∧
    (process_folder 2 [[itA], [itP], []] 10 [['a']] 7 0).identified = [] ∧
    (process_folder 2 [[itA], [itP], []] 10 [['a']] 7 0).done = true ∧
    itP ∉ (process_folder 2 [[itA], [itP], []] 10 [['a']] 7 0).identified := by
  refine ⟨by decide, by decide, by decide, by decide, by decide⟩

/-- C2 (amended).  The loop stops at the first page that is empty or whose
items are all filtered out (and past the end of the listing the token walk
re-serves the first page rather than an empty one).  When every page before
the first empty page is non-empty and consists of distinct items that pass
the filter and process successfully, the original claim holds: every such
page is fetched, every one of its items is considered, and nothing past the
empty page is touched. -/
theorem C2_pagination_stop (limit fuel pc ec : Nat) (P Q : List (List RunItem))
    (files0 : List (List Char))
    (hlimit : 0 < limit) (hfuel : P.length < fuel)
    (hne : ∀ p ∈ P, p ≠ [])
    (hfresh : ∀ it ∈ P.flatten, it.id ∉ files0 ∧
      is_already_processed it.name = false ∧ it.outcome.success = true)
    (hnd : (P.flatten.map RunItem.id).Nodup) :
    (process_folder limit (P ++ [] :: Q) fuel files0 pc ec).pagesFetched = P.length + 1 ∧
    (process_folder limit (P ++ [] :: Q) fuel files0 pc ec).identified = P.flatten ∧
    (process_folder limit (P ++ [] :: Q) fuel files0 pc ec).done = true := by
  have h := run_all_fresh limit hlimit (P ++ [] :: Q) Q P 0 fuel (init_state files0 pc ec)
    (by rw [List.drop_zero]) hne hfresh hnd hfuel
  exact ⟨by simpa [process_folder, init_state] using h.1,
    by simpa [process_folder, init_state] using h.2.1,
    by simpa [process_folder, init_state] using h.2.2.2⟩

/-- Witness for C2 over two fresh one-item pages followed by the empty
page, with a further page behind it that is never reached. -/
theorem C2_pagination_stop_witness :
    ((0 : Nat) < 2 ∧ ([[itA], [itC]] : List (List RunItem)).length < 3 ∧
      (∀ p ∈ [[itA], [itC]], p ≠ ([] : List RunItem)) ∧
      (∀ it ∈ ([[itA], [itC]] : List (List RunItem)).flatten, it.id ∉ ([] : List (List Char)) ∧
        is_already_processed it.name = false ∧ it.outcome.success = true) ∧
      (([[itA], [itC]] : List (List RunItem)).flatten.map RunItem.id).Nodup) ∧
    (process_folder 2 ([[itA], [itC]] ++ [] :: [[itP]]) 3 [] 0 0).pagesFetched = 3 ∧
    (process_folder 2 ([[itA], [itC]] ++ [] :: [[itP]]) 3 [] 0 0).identified = [itA, itC] ∧
    (process_folder 2 ([[itA], [itC]] ++ [] :: [[itP]]) 3 [] 0 0).done = true := by
  have h := C2_pagination_stop 2 3 0 0 [[itA], [itC]] [[itP]] []
    (by decide) (by decide) (by decide) (by decide) (by decide)
  exact ⟨⟨by decide, by decide, by decide, by decide, by decide⟩, h.1, h.2.1, h.2.2⟩
